import Mathlib

/-!
Shallow embedding of `src/app.rs` of the `stickies` application: the state
store (`AppState`), the intent/effect type (`Effect`), and the per-frame
drain loop `apply_effects`, together with theorems settling the spec claims.
-/

set_option autoImplicit false

namespace Stickies

/-- Values of Rust type `f32`. The application only stores and retrieves
measurement values in the cache and never computes with them, so they are
modelled as opaque bit patterns. -/
structure F32 where
  bits : Nat
deriving DecidableEq, Repr

/-- The `Todo` struct of `app.rs`: `{ id: egui::Id, label: String,
checked: bool, edit_mode: bool }`.  The `egui::Id` is built from the
monotonically increasing `usize` counter kept in egui context memory, so
identifiers are modelled by the counter value (a `Nat`). -/
structure Todo where
  id : Nat
  label : String
  checked : Bool
  edit_mode : Bool
deriving DecidableEq, Repr

/-- `Todo::new(id, label)`: label as given, `checked = false`,
`edit_mode = false`. -/
def Todo.new (id : Nat) (label : String) : Todo :=
  { id := id, label := label, checked := false, edit_mode := false }

/-- The persistent fields of the `AppState` struct (`draft`, `todos`,
`calculated`), plus the id `counter` that `apply_effects` reads and bumps
through `ctx.memory_mut` / `get_persisted_mut_or_default`.  The two mpsc
channel endpoints carry no state beyond the queued effects, which are
passed to `apply_effects` explicitly as a list.  The `HashMap<String, f32>`
cache is modelled as an association list with HashMap insert semantics
(`insertCalc`). -/
structure AppState where
  draft : String
  todos : List Todo
  calculated : List (String × F32)
  counter : Nat
deriving DecidableEq, Repr

/-- `impl Default for AppState` (the counter defaults to `usize`'s default
`0` via `get_persisted_mut_or_default`). -/
def defaultAppState : AppState :=
  { draft := "Feed doge", todos := [], calculated := [], counter := 0 }

/-- The `Effect` enum of `app.rs`. -/
inductive Effect where
  | DraftTodo (draft : String)
  | AddTodo (label : String)
  | EditTodo (index : Nat)
  | SaveTodo (index : Nat) (label : String)
  | CheckTodo (index : Nat)
  | DeleteTodo (index : Nat)
  | InsertCalculated (name : String) (value : F32)
deriving DecidableEq, Repr

/-- `self.todos.get_mut(index)` followed by a mutation of the entry: if
`index` is in range the entry is replaced by `f` of it, otherwise the list
is unchanged. -/
def modifyAt {α : Type} (f : α → α) : List α → Nat → List α
  | [], _ => []
  | a :: rest, 0 => f a :: rest
  | a :: rest, n + 1 => a :: modifyAt f rest n

/-- `HashMap::insert(name, value)`: overwrite the entry for the key if
present, otherwise add a new entry. -/
def insertCalc : List (String × F32) → String → F32 → List (String × F32)
  | [], k, v => [(k, v)]
  | (k₀, v₀) :: rest, k, v =>
    if k₀ = k then (k, v) :: rest else (k₀, v₀) :: insertCalc rest k v

/-- `HashMap::get(&name)` on the modelled cache. -/
def lookupCalc : List (String × F32) → String → Option F32
  | [], _ => none
  | (k₀, v₀) :: rest, k => if k₀ = k then some v₀ else lookupCalc rest k

/-- The key set of the modelled cache. -/
def calcKeys (m : List (String × F32)) : List String :=
  m.map Prod.fst

/-- One iteration of the `match effect { ... }` in `AppState::apply_effects`:
the handler for a single intent. -/
def applyEffect (s : AppState) (e : Effect) : AppState :=
  match e with
  | Effect.DraftTodo draft => { s with draft := draft }
  | Effect.AddTodo label =>
    { s with
      counter := s.counter + 1
      todos := s.todos ++ [Todo.new s.counter label]
      draft := "" }
  | Effect.EditTodo index =>
    { s with todos := modifyAt (fun t => { t with edit_mode := !t.edit_mode }) s.todos index }
  | Effect.SaveTodo index label =>
    { s with todos := modifyAt (fun t => { t with label := label }) s.todos index }
  | Effect.CheckTodo index =>
    { s with todos := modifyAt (fun t => { t with checked := !t.checked }) s.todos index }
  | Effect.DeleteTodo index =>
    { s with todos := if index < s.todos.length then s.todos.eraseIdx index else s.todos }
  | Effect.InsertCalculated name value =>
    { s with calculated := insertCalc s.calculated name value }

/-- `AppState::apply_effects`: the `while let Ok(effect) = try_recv` loop,
draining the FIFO queue front to back and applying each effect in turn. -/
def apply_effects (s : AppState) : List Effect → AppState
  | [] => s
  | e :: rest => apply_effects (applyEffect s e) rest

/-! ### Helper lemmas about the list and cache primitives -/

theorem modifyAt_of_length_le {α : Type} (f : α → α) (l : List α) (n : Nat)
    (h : l.length ≤ n) : modifyAt f l n = l := by
  induction l generalizing n with
  | nil => rfl
  | cons a rest ih =>
    cases n with
    | zero => simp at h
    | succ m => simp [modifyAt, ih m (by simpa using h)]

theorem modifyAt_modifyAt_cancel {α : Type} (f : α → α) (hf : ∀ a, f (f a) = a)
    (l : List α) (n : Nat) : modifyAt f (modifyAt f l n) n = l := by
  induction l generalizing n with
  | nil => rfl
  | cons a rest ih =>
    cases n with
    | zero => simp [modifyAt, hf]
    | succ m => simp [modifyAt, ih m]

theorem map_modifyAt {α β : Type} (g : α → β) (f : α → α) (hf : ∀ a, g (f a) = g a)
    (l : List α) (n : Nat) : (modifyAt f l n).map g = l.map g := by
  induction l generalizing n with
  | nil => rfl
  | cons a rest ih =>
    cases n with
    | zero => simp [modifyAt, hf]
    | succ m => simp [modifyAt, ih m]

theorem modifyAt_getElem? {α : Type} (f : α → α) (l : List α) (n j : Nat) :
    (modifyAt f l n)[j]? = if j = n then l[j]?.map f else l[j]? := by
  induction l generalizing n j with
  | nil => simp [modifyAt]
  | cons a rest ih =>
    cases n with
    | zero =>
      cases j with
      | zero => simp [modifyAt]
      | succ j => simp [modifyAt]
    | succ m =>
      cases j with
      | zero => simp [modifyAt]
      | succ j => simpa [modifyAt, Nat.succ_eq_add_one] using ih m j

theorem map_eraseIdx {α β : Type} (g : α → β) (l : List α) (i : Nat) :
    (l.eraseIdx i).map g = (l.map g).eraseIdx i := by
  rw [List.eraseIdx_eq_take_drop_succ, List.eraseIdx_eq_take_drop_succ,
    List.map_append, List.map_take, List.map_drop]

theorem lookupCalc_insertCalc_same (m : List (String × F32)) (k : String) (v : F32) :
    lookupCalc (insertCalc m k v) k = some v := by
  induction m with
  | nil => simp [insertCalc, lookupCalc]
  | cons p rest ih =>
    by_cases h : p.1 = k
    · simp [insertCalc, h, lookupCalc]
    · simp [insertCalc, h, lookupCalc, ih]

theorem lookupCalc_insertCalc_ne (m : List (String × F32)) (k v : _) (k₁ : String)
    (h : k₁ ≠ k) : lookupCalc (insertCalc m k v) k₁ = lookupCalc m k₁ := by
  induction m with
  | nil => simp [insertCalc, lookupCalc, Ne.symm h]
  | cons p rest ih =>
    by_cases hp : p.1 = k
    · subst hp
      simp [insertCalc, lookupCalc, Ne.symm h]
    · simp [insertCalc, hp, lookupCalc, ih]

theorem mem_calcKeys_insertCalc (m : List (String × F32)) (k : String) (v : F32)
    (k₁ : String) (h : k₁ ∈ calcKeys m) : k₁ ∈ calcKeys (insertCalc m k v) := by
  induction m with
  | nil => simp [calcKeys] at h
  | cons p rest ih =>
    by_cases hp : p.1 = k
    · subst hp
      simp [insertCalc, calcKeys] at h ⊢
      tauto
    · simp [insertCalc, hp, calcKeys] at h ⊢
      rcases h with h | h
      · exact Or.inl h
      · exact Or.inr (by simpa [calcKeys] using ih (by simpa [calcKeys] using h))

theorem calcKeys_applyEffect_mono (s : AppState) (e : Effect) (k : String)
    (h : k ∈ calcKeys s.calculated) : k ∈ calcKeys (applyEffect s e).calculated := by
  cases e with
  | InsertCalculated name value => exact mem_calcKeys_insertCalc s.calculated name value k h
  | _ => simpa [applyEffect] using h

theorem calcKeys_apply_effects_mono (es : List Effect) (s : AppState) (k : String)
    (h : k ∈ calcKeys s.calculated) : k ∈ calcKeys (apply_effects s es).calculated := by
  induction es generalizing s with
  | nil => simpa [apply_effects] using h
  | cons e rest ih =>
    exact ih (applyEffect s e) (calcKeys_applyEffect_mono s e k h)

/-- The id-allocation invariant: every present identifier is below the counter,
and present identifiers are pairwise distinct. -/
def idInvariant (s : AppState) : Prop :=
  (∀ i ∈ s.todos.map Todo.id, i < s.counter) ∧ (s.todos.map Todo.id).Nodup

theorem idInvariant_default : idInvariant defaultAppState := by
  constructor <;> simp [defaultAppState]

theorem ids_sublist_of_applyEffect_no_add (s : AppState) (e : Effect)
    (h : ∀ label, e ≠ Effect.AddTodo label) :
    ((applyEffect s e).todos.map Todo.id).Sublist (s.todos.map Todo.id) := by
  cases e with
  | DraftTodo draft => simp [applyEffect]
  | AddTodo label => exact absurd rfl (h label)
  | EditTodo index =>
    have hids : (applyEffect s (Effect.EditTodo index)).todos.map Todo.id
        = s.todos.map Todo.id :=
      map_modifyAt Todo.id (fun t => { t with edit_mode := !t.edit_mode })
        (fun t => rfl) s.todos index
    rw [hids]
  | SaveTodo index label =>
    have hids : (applyEffect s (Effect.SaveTodo index label)).todos.map Todo.id
        = s.todos.map Todo.id :=
      map_modifyAt Todo.id (fun t => { t with label := label })
        (fun t => rfl) s.todos index
    rw [hids]
  | CheckTodo index =>
    have hids : (applyEffect s (Effect.CheckTodo index)).todos.map Todo.id
        = s.todos.map Todo.id :=
      map_modifyAt Todo.id (fun t => { t with checked := !t.checked })
        (fun t => rfl) s.todos index
    rw [hids]
  | DeleteTodo index =>
    by_cases hi : index < s.todos.length
    · rw [show (applyEffect s (Effect.DeleteTodo index)).todos
          = s.todos.eraseIdx index from by simp [applyEffect, hi],
        map_eraseIdx]
      exact List.eraseIdx_sublist _ index
    · simp [applyEffect, hi]
  | InsertCalculated name value => simp [applyEffect]

theorem counter_mono_applyEffect (s : AppState) (e : Effect) :
    s.counter ≤ (applyEffect s e).counter := by
  cases e <;> simp [applyEffect]

theorem idInvariant_applyEffect (s : AppState) (e : Effect) (h : idInvariant s) :
    idInvariant (applyEffect s e) := by
  obtain ⟨hlt, hnd⟩ := h
  cases he : e with
  | AddTodo label =>
    constructor
    · intro i hi
      simp [applyEffect, Todo.new] at hi ⊢
      rcases hi with hi | hi
      · exact Nat.lt_succ_of_lt (hlt i (by simpa using hi))
      · omega
    · rw [show (applyEffect s (Effect.AddTodo label)).todos
          = s.todos ++ [Todo.new s.counter label] from rfl]
      rw [List.map_append]
      rw [List.nodup_append]
      refine ⟨hnd, by simp [Todo.new], ?_⟩
      intro i hi hmem
      have : i = s.counter := by simpa [Todo.new] using hmem
      exact absurd (hlt i hi) (by omega)
  | _ =>
    have hsub := ids_sublist_of_applyEffect_no_add s e (by intro label hc; rw [he] at hc; cases hc)
    rw [he] at hsub
    constructor
    · intro i hi
      have h₁ : i < s.counter := hlt i (hsub.subset hi)
      have h₂ := counter_mono_applyEffect s e
      rw [he] at h₂
      omega
    · exact hsub.nodup hnd

theorem idInvariant_apply_effects (es : List Effect) (s : AppState) (h : idInvariant s) :
    idInvariant (apply_effects s es) := by
  induction es generalizing s with
  | nil => simpa [apply_effects] using h
  | cons e rest ih => exact ih (applyEffect s e) (idInvariant_applyEffect s e h)

/-! ### The claims -/

/-- C1: for every state and every non-empty label, applying the Add(label)
intent appends exactly one new note at the end of the note list with that
label, checked = false, edit_mode = false and a fresh identifier (fresh under
the allocation invariant that every present identifier is below the counter),
increases the note count by exactly one, and clears the draft to empty. -/
theorem c1_add_nonempty_appends (s : AppState) (label : String) (hl : label ≠ "")
    (hfresh : ∀ t ∈ s.todos, t.id < s.counter) :
    (applyEffect s (Effect.AddTodo label)).todos
        = s.todos ++ [{ id := s.counter, label := label, checked := false, edit_mode := false }] ∧
    (applyEffect s (Effect.AddTodo label)).todos.length = s.todos.length + 1 ∧
    (applyEffect s (Effect.AddTodo label)).draft = "" ∧
    ∀ t ∈ s.todos, t.id ≠ s.counter := by
  refine ⟨rfl, by simp [applyEffect], rfl, ?_⟩
  intro t ht
  exact Nat.ne_of_lt (hfresh t ht)

/-- Witness for C1 at the default state and the label "a". -/
theorem c1_add_nonempty_appends_witness :
    (applyEffect defaultAppState (Effect.AddTodo "a")).todos
        = defaultAppState.todos
            ++ [{ id := defaultAppState.counter, label := "a", checked := false,
                  edit_mode := false }] ∧
    (applyEffect defaultAppState (Effect.AddTodo "a")).todos.length
        = defaultAppState.todos.length + 1 ∧
    (applyEffect defaultAppState (Effect.AddTodo "a")).draft = "" ∧
    ∀ t ∈ defaultAppState.todos, t.id ≠ defaultAppState.counter :=
  c1_add_nonempty_appends defaultAppState "a" (by decide) (by decide)

/-- C2, counterexample: applying Add with the empty label to the default state
is not a no-op (the code pushes a note unconditionally). -/
theorem c2_empty_add_not_noop :
    applyEffect defaultAppState (Effect.AddTodo "") ≠ defaultAppState := by
  decide

/-- C2, amended: applying Add with an empty label behaves exactly like any
other add, appending one note with the empty label, checked = false,
edit_mode = false and a fresh identifier, increasing the note count by one,
and clearing the draft; it is not a no-op. -/
theorem c2_empty_add_appends (s : AppState)
    (hfresh : ∀ t ∈ s.todos, t.id < s.counter) :
    (applyEffect s (Effect.AddTodo "")).todos
        = s.todos ++ [{ id := s.counter, label := "", checked := false, edit_mode := false }] ∧
    (applyEffect s (Effect.AddTodo "")).todos.length = s.todos.length + 1 ∧
    (applyEffect s (Effect.AddTodo "")).draft = "" ∧
    ∀ t ∈ s.todos, t.id ≠ s.counter := by
  refine ⟨rfl, by simp [applyEffect], rfl, ?_⟩
  intro t ht
  exact Nat.ne_of_lt (hfresh t ht)

/-- Witness for the amended C2 at the default state. -/
theorem c2_empty_add_appends_witness :
    (applyEffect defaultAppState (Effect.AddTodo "")).todos
        = defaultAppState.todos
            ++ [{ id := defaultAppState.counter, label := "", checked := false,
                  edit_mode := false }] ∧
    (applyEffect defaultAppState (Effect.AddTodo "")).todos.length
        = defaultAppState.todos.length + 1 ∧
    (applyEffect defaultAppState (Effect.AddTodo "")).draft = "" ∧
    ∀ t ∈ defaultAppState.todos, t.id ≠ defaultAppState.counter :=
  c2_empty_add_appends defaultAppState (by decide)

/-- C3: deleting the note at an in-range position removes exactly that note
and leaves the remaining notes in their original relative order: the result
is the prefix before the note followed by the suffix after it, and the
original list is that prefix, the removed note, then that suffix. -/
theorem c3_delete_removes_exactly_one (s : AppState) (i : Nat)
    (hi : i < s.todos.length) :
    (applyEffect s (Effect.DeleteTodo i)).todos
        = s.todos.take i ++ s.todos.drop (i + 1) ∧
    s.todos = s.todos.take i ++ s.todos[i] :: s.todos.drop (i + 1) := by
  constructor
  · simp [applyEffect, hi, List.eraseIdx_eq_take_drop_succ]
  · rw [← List.drop_eq_getElem_cons hi, List.take_append_drop]

/-- Witness for C3: deleting B from [A, B, C] yields [A, C] in that order. -/
theorem c3_delete_removes_exactly_one_witness :
    (applyEffect
        { draft := "", todos := [Todo.new 0 "A", Todo.new 1 "B", Todo.new 2 "C"],
          calculated := [], counter := 3 }
        (Effect.DeleteTodo 1)).todos
      = [Todo.new 0 "A", Todo.new 2 "C"] := by
  have h := c3_delete_removes_exactly_one
    { draft := "", todos := [Todo.new 0 "A", Todo.new 1 "B", Todo.new 2 "C"],
      calculated := [], counter := 3 } 1 (by decide)
  exact h.1.trans (by decide)

/-- C4: applying ToggleEdit (EditTodo), SetLabel (SaveTodo), ToggleChecked
(CheckTodo) or Delete (DeleteTodo) with an index that refers to no present
note leaves the entire state unchanged; the handlers are total and return no
error. -/
theorem c4_missing_index_noop (s : AppState) (i : Nat) (label : String)
    (hi : s.todos.length ≤ i) :
    applyEffect s (Effect.EditTodo i) = s ∧
    applyEffect s (Effect.SaveTodo i label) = s ∧
    applyEffect s (Effect.CheckTodo i) = s ∧
    applyEffect s (Effect.DeleteTodo i) = s := by
  refine ⟨?_, ?_, ?_, ?_⟩ <;>
    simp [applyEffect, modifyAt_of_length_le _ _ _ hi, Nat.not_lt.mpr hi]

/-- Witness for C4: index 5 on a single-note state. -/
theorem c4_missing_index_noop_witness :
    applyEffect { draft := "", todos := [Todo.new 0 "A"], calculated := [], counter := 1 }
        (Effect.EditTodo 5)
      = { draft := "", todos := [Todo.new 0 "A"], calculated := [], counter := 1 } ∧
    applyEffect { draft := "", todos := [Todo.new 0 "A"], calculated := [], counter := 1 }
        (Effect.SaveTodo 5 "x")
      = { draft := "", todos := [Todo.new 0 "A"], calculated := [], counter := 1 } ∧
    applyEffect { draft := "", todos := [Todo.new 0 "A"], calculated := [], counter := 1 }
        (Effect.CheckTodo 5)
      = { draft := "", todos := [Todo.new 0 "A"], calculated := [], counter := 1 } ∧
    applyEffect { draft := "", todos := [Todo.new 0 "A"], calculated := [], counter := 1 }
        (Effect.DeleteTodo 5)
      = { draft := "", todos := [Todo.new 0 "A"], calculated := [], counter := 1 } :=
  c4_missing_index_noop
    { draft := "", todos := [Todo.new 0 "A"], calculated := [], counter := 1 } 5 "x"
    (by decide)

/-- C5: for every state and every index of a present note, applying
ToggleChecked (CheckTodo) twice, and likewise ToggleEdit (EditTodo) twice,
returns the state to its original value. -/
theorem c5_toggle_twice_roundtrip (s : AppState) (i : Nat)
    (hi : i < s.todos.length) :
    applyEffect (applyEffect s (Effect.CheckTodo i)) (Effect.CheckTodo i) = s ∧
    applyEffect (applyEffect s (Effect.EditTodo i)) (Effect.EditTodo i) = s := by
  constructor
  · simp [applyEffect,
      modifyAt_modifyAt_cancel (fun t : Todo => { t with checked := !t.checked })
        (fun t => by simp) s.todos i]
  · simp [applyEffect,
      modifyAt_modifyAt_cancel (fun t : Todo => { t with edit_mode := !t.edit_mode })
        (fun t => by simp) s.todos i]

/-- Witness for C5: index 0 on a single-note state. -/
theorem c5_toggle_twice_roundtrip_witness :
    applyEffect
        (applyEffect { draft := "", todos := [Todo.new 0 "A"], calculated := [], counter := 1 }
          (Effect.CheckTodo 0))
        (Effect.CheckTodo 0)
      = { draft := "", todos := [Todo.new 0 "A"], calculated := [], counter := 1 } ∧
    applyEffect
        (applyEffect { draft := "", todos := [Todo.new 0 "A"], calculated := [], counter := 1 }
          (Effect.EditTodo 0))
        (Effect.EditTodo 0)
      = { draft := "", todos := [Todo.new 0 "A"], calculated := [], counter := 1 } :=
  c5_toggle_twice_roundtrip
    { draft := "", todos := [Todo.new 0 "A"], calculated := [], counter := 1 } 0
    (by decide)

/-- C6: draining the queue in `apply_effects` is a left fold of the
single-intent handler over the enqueued intents in FIFO order. -/
theorem c6_apply_effects_eq_foldl (s : AppState) (es : List Effect) :
    apply_effects s es = es.foldl applyEffect s := by
  induction es generalizing s with
  | nil => rfl
  | cons e rest ih => simpa [apply_effects] using ih (applyEffect s e)

/-- C7: in every state reachable from the initial state by applying intents,
present identifiers are pairwise distinct; and every single intent either
leaves the identifier sequence unchanged (mutation in place), appends one
identifier at the end, or erases one position without reordering the rest,
so list order is insertion order. -/
theorem c7_unique_ids_insertion_order :
    (∀ es : List Effect,
      ((apply_effects defaultAppState es).todos.map Todo.id).Nodup) ∧
    (∀ (s : AppState) (e : Effect),
      (applyEffect s e).todos.map Todo.id = s.todos.map Todo.id ∨
      (∃ n, (applyEffect s e).todos.map Todo.id = s.todos.map Todo.id ++ [n]) ∨
      (∃ i, (applyEffect s e).todos.map Todo.id
          = (s.todos.map Todo.id).eraseIdx i)) := by
  constructor
  · intro es
    exact (idInvariant_apply_effects es defaultAppState idInvariant_default).2
  · intro s e
    cases e with
    | DraftTodo draft => exact Or.inl rfl
    | AddTodo label =>
      refine Or.inr (Or.inl ⟨s.counter, ?_⟩)
      rw [show (applyEffect s (Effect.AddTodo label)).todos
          = s.todos ++ [Todo.new s.counter label] from rfl, List.map_append]
      rfl
    | EditTodo index =>
      exact Or.inl (map_modifyAt Todo.id (fun t => { t with edit_mode := !t.edit_mode })
        (fun t => rfl) s.todos index)
    | SaveTodo index label =>
      exact Or.inl (map_modifyAt Todo.id (fun t => { t with label := label })
        (fun t => rfl) s.todos index)
    | CheckTodo index =>
      exact Or.inl (map_modifyAt Todo.id (fun t => { t with checked := !t.checked })
        (fun t => rfl) s.todos index)
    | DeleteTodo index =>
      by_cases hi : index < s.todos.length
      · refine Or.inr (Or.inr ⟨index, ?_⟩)
        rw [show (applyEffect s (Effect.DeleteTodo index)).todos
            = s.todos.eraseIdx index from by simp [applyEffect, hi], map_eraseIdx]
      · exact Or.inl (by simp [applyEffect, hi])
    | InsertCalculated name value => exact Or.inl rfl

/-- C8: CacheMeasurement (InsertCalculated) upserts into the measurement
cache — afterwards the slot maps to the new value and every other slot is
unchanged — and no intent ever removes a cache entry: across any sequence of
applied intents the cache key set never shrinks. -/
theorem c8_cache_upsert_monotone :
    (∀ (s : AppState) (name : String) (v : F32),
      lookupCalc (applyEffect s (Effect.InsertCalculated name v)).calculated name
          = some v ∧
      ∀ k, k ≠ name →
        lookupCalc (applyEffect s (Effect.InsertCalculated name v)).calculated k
            = lookupCalc s.calculated k) ∧
    (∀ (s : AppState) (es : List Effect) (k : String),
      k ∈ calcKeys s.calculated → k ∈ calcKeys (apply_effects s es).calculated) := by
  constructor
  · intro s name v
    exact ⟨lookupCalc_insertCalc_same s.calculated name v,
      fun k hk => lookupCalc_insertCalc_ne s.calculated name v k hk⟩
  · intro s es k hk
    exact calcKeys_apply_effects_mono es s k hk

/-- Witness for C8: inserting into the default state, then surviving an
AddTodo intent. -/
theorem c8_cache_upsert_monotone_witness :
    lookupCalc
        (applyEffect defaultAppState
          (Effect.InsertCalculated "draft_todo" (F32.mk 120))).calculated "draft_todo"
      = some (F32.mk 120) ∧
    "draft_todo" ∈ calcKeys
        (apply_effects
          (applyEffect defaultAppState (Effect.InsertCalculated "draft_todo" (F32.mk 120)))
          [Effect.AddTodo "a"]).calculated :=
  ⟨(c8_cache_upsert_monotone.1 defaultAppState "draft_todo" (F32.mk 120)).1,
    c8_cache_upsert_monotone.2
      (applyEffect defaultAppState (Effect.InsertCalculated "draft_todo" (F32.mk 120)))
      [Effect.AddTodo "a"] "draft_todo" (by decide)⟩

/-- C9: the default application state has draft equal to the literal
"Feed doge" (hence non-empty), an empty note list, and an empty measurement
cache. -/
theorem c9_default_state :
    defaultAppState.draft = "Feed doge" ∧
    defaultAppState.draft ≠ "" ∧
    defaultAppState.todos = [] ∧
    defaultAppState.calculated = [] := by
  decide

/-- C10: EditTodo, SaveTodo, CheckTodo and DeleteTodo leave the draft and the
measurement cache unchanged; InsertCalculated leaves the draft and the note
list unchanged; and SaveTodo rewrites only the targeted note's label, leaving
that note's id, checked and edit_mode fields and every other note unchanged. -/
theorem c10_frame_conditions :
    ∀ (s : AppState) (i : Nat) (label name : String) (v : F32),
      ((applyEffect s (Effect.EditTodo i)).draft = s.draft ∧
        (applyEffect s (Effect.EditTodo i)).calculated = s.calculated) ∧
      ((applyEffect s (Effect.SaveTodo i label)).draft = s.draft ∧
        (applyEffect s (Effect.SaveTodo i label)).calculated = s.calculated) ∧
      ((applyEffect s (Effect.CheckTodo i)).draft = s.draft ∧
        (applyEffect s (Effect.CheckTodo i)).calculated = s.calculated) ∧
      ((applyEffect s (Effect.DeleteTodo i)).draft = s.draft ∧
        (applyEffect s (Effect.DeleteTodo i)).calculated = s.calculated) ∧
      ((applyEffect s (Effect.InsertCalculated name v)).draft = s.draft ∧
        (applyEffect s (Effect.InsertCalculated name v)).todos = s.todos) ∧
      (∀ j, (applyEffect s (Effect.SaveTodo i label)).todos[j]?
          = if j = i then s.todos[j]?.map (fun t => { t with label := label })
            else s.todos[j]?) := by
  intro s i label name v
  refine ⟨⟨rfl, rfl⟩, ⟨rfl, rfl⟩, ⟨rfl, rfl⟩, ⟨rfl, rfl⟩, ⟨rfl, rfl⟩, ?_⟩
  intro j
  exact modifyAt_getElem? (fun t => { t with label := label }) s.todos i j

end Stickies
